import Mathlib

/-!
Verification of the reflector session-summarizer hook (`handler.js`).

The JavaScript source is shallowly embedded: JS strings are modelled as
`String` (sequences of characters, operated on through their `List Char`
data), fallible/effectful steps are modelled with `Option` and explicit
outcome values, and machine loops are modelled with explicit fuel where
the source loop is unbounded.  All definitions are executable and use
structural recursion only, so concrete runs evaluate by `decide`/`rfl`.
-/

set_option maxRecDepth 4000

namespace Reflector

/-! ### JavaScript string primitives

`wsChar` models the whitespace class stripped by `String.prototype.trim`
(restricted to the ASCII whitespace characters that occur in session
transcripts).  `jsTrimL` is `trim` on character lists, `splitNl` is
`split("\n")`, `joinWith` is `Array.prototype.join`. -/

def wsChar (c : Char) : Bool :=
  c = ' ' || c = '\t' || c = '\r' || c = '\n'

def jsTrimL (l : List Char) : List Char :=
  ((l.dropWhile wsChar).reverse.dropWhile wsChar).reverse

def jsTrim (s : String) : String := ⟨jsTrimL s.data⟩

/-- `s.startsWith(p)` on JS strings. -/
def strStartsWith (s p : String) : Bool := p.data.isPrefixOf s.data

/-- `text.split(sep)` for a one-character separator: `[""]` for the empty
string, empty fields preserved. -/
def splitOnChar (sep : Char) : List Char → List (List Char)
  | [] => [[]]
  | c :: rest =>
    if c = sep then [] :: splitOnChar sep rest
    else match splitOnChar sep rest with
      | [] => [[c]]
      | h :: t => (c :: h) :: t

/-- `text.split("\n")`. -/
def splitNl (l : List Char) : List (List Char) := splitOnChar '\n' l

/-- `parts.join(sep)` on character lists. -/
def joinWith (sep : List Char) : List (List Char) → List Char
  | [] => []
  | [x] => x
  | x :: y :: t => x ++ sep ++ joinWith sep (y :: t)

/-! ### Noise classifier (`isNoise`, `NOISE_PATTERNS`)

The two `System:` patterns are the regexes `^System: \[.*\] Exec finished`
and `^System: \[.*\] Exec started`: the text must start with `"System: ["`
and contain the closing marker after a newline-free gap (`.` does not match
newline).  `hasCloseMarker` scans for the marker, failing at a newline. -/

def hasCloseMarker (marker : List Char) : List Char → Bool
  | [] => false
  | c :: rest =>
    if marker.isPrefixOf (c :: rest) then true
    else if c = '\n' then false
    else hasCloseMarker marker rest

def sysNoticeWith (marker : String) (t : String) : Bool :=
  strStartsWith t "System: [" && hasCloseMarker marker.data (t.data.drop 9)

/-- `isNoise(text)` from `handler.js`: trims, then tests emptiness, the
slash-command prefix, and the fixed administrative patterns. -/
def isNoise (text : String) : Bool :=
  let trimmed := jsTrim text
  if trimmed = "" then true
  else if strStartsWith trimmed "/" then true
  else
    (trimmed == "HEARTBEAT_OK") || (trimmed == "NO_REPLY")
    || strStartsWith trimmed "Read HEARTBEAT.md"
    || sysNoticeWith "] Exec finished" trimmed
    || sysNoticeWith "] Exec started" trimmed
    || strStartsWith trimmed "An async command you ran earlier"
    || strStartsWith trimmed "Approval required (id"

/-! ### Content extraction (`extractText`) -/

/-- One entry of an array-shaped `content` field; `none` models a non-object
or null array element, `text = none` a missing `text` field. -/
structure ContentBlock where
  type : String
  text : Option String
  deriving DecidableEq

/-- The `content` field of a message: a plain string, an array of blocks,
or any other shape. -/
inductive JsContent where
  | str (s : String)
  | blocks (bs : List (Option ContentBlock))
  | other
  deriving DecidableEq

/-- The filter `c && c.type === "text" && c.text` followed by `.map(c => c.text)`. -/
def blockText (ob : Option ContentBlock) : Option String :=
  match ob with
  | some b =>
    match b.text with
    | some t => if b.type = "text" ∧ t ≠ "" then some t else none
    | none => none
  | none => none

def extractText : JsContent → String
  | .str s => s
  | .blocks bs => ⟨joinWith ['\n'] ((bs.filterMap blockText).map String.data)⟩
  | .other => ""

/-! ### Line-level sub-filter inside `buildCleanTranscript` -/

def lineKept (l : List Char) : Bool :=
  let t := jsTrimL l
  !("🛠️ Exec:".data.isPrefixOf t
    || "🛠️ Read:".data.isPrefixOf t
    || "System: [".data.isPrefixOf t)

/-- `text.split("\n").filter(keep).join("\n").trim()`. -/
def lineClean (text : String) : String :=
  ⟨jsTrimL (joinWith ['\n'] ((splitNl text.data).filter lineKept))⟩

/-! ### Session records and the transcript builder -/

/-- A parsed message: `role`, `content`, and whether a truthy `tool_calls`
field is present. -/
structure SessionMessage where
  role : String
  content : JsContent
  toolCalls : Bool
  deriving DecidableEq

/-- A parsed JSONL entry; `message = none` models a missing/null `message`
field.  Lines that fail `JSON.parse` are skipped by the source before this
point and so never appear in the entry list. -/
structure SessionEntry where
  type : String
  message : Option SessionMessage
  deriving DecidableEq

def roleLabel (role : String) : String :=
  if role = "user" then "USER"
  else if role = "assistant" then "ASSISTANT"
  else ⟨role.data.map Char.toUpper⟩

/-- One iteration of the `for (const line of lines)` loop in
`buildCleanTranscript`: `none` means the record is skipped, `some l` means
the labeled line `l` is pushed onto the transcript. -/
def recordLine (e : SessionEntry) : Option String :=
  if e.type ≠ "message" then none
  else match e.message with
  | none => none
  | some msg =>
    if msg.role = "tool" then none
    else if msg.role = "system" then none
    else
      let text := extractText msg.content
      if text = "" then none
      else if msg.role = "assistant" ∧ msg.toolCalls ∧ jsTrim text = "" then none
      else if isNoise text then none
      else
        let cleaned := lineClean text
        if cleaned = "" then none
        else some (roleLabel msg.role ++ ": " ++ cleaned)

def truncMarker : String := "...(earlier conversation truncated)...\n\n"

/-- `transcript.join("\n\n")`. -/
def joinBlankLines : List String → String
  | [] => ""
  | [x] => x
  | x :: y :: t => x ++ "\n\n" ++ joinBlankLines (y :: t)

/-- The last `k` characters of `s`. -/
def takeRightStr (k : Nat) (s : String) : String :=
  ⟨s.data.drop (s.data.length - k)⟩

/-- `s.slice(-k)` for a nonnegative `k`: JS maps `-0` to `0`, so `k = 0`
yields the whole string; for `k > 0` it yields the last `min k len`
characters. -/
def jsSliceNeg (k : Nat) (s : String) : String :=
  if k = 0 then s else takeRightStr k s

def joinedTranscript (entries : List SessionEntry) : String :=
  joinBlankLines (entries.filterMap recordLine)

/-- `buildCleanTranscript` from `handler.js`, over the parsed entries of the
session file and the configured `maxChars` budget. -/
def buildCleanTranscript (entries : List SessionEntry) (maxChars : Nat) : String :=
  let joined := joinedTranscript entries
  if joined.length > maxChars then truncMarker ++ jsSliceNeg maxChars joined
  else joined

/-- Sample entries used to instantiate theorems at concrete inputs. -/
def userEntry (t : String) : SessionEntry :=
  ⟨"message", some ⟨"user", .str t, false⟩⟩

def heartbeatEntry : SessionEntry := ⟨"message", some ⟨"user", .str "HEARTBEAT_OK", false⟩⟩

def slashEntry : SessionEntry := ⟨"message", some ⟨"user", .str "/compact", false⟩⟩

def blankEntry : SessionEntry := ⟨"message", some ⟨"assistant", .str "   ", false⟩⟩

/-! ### Slug post-processing (`handler.js` lines 349–363)

The cleanup chain is
`replace(/```/g,"") . trim() . toLowerCase() . replace(/[^a-z0-9-]/g,"-")
. collapse-hyphen-runs . trim-edge-hyphens . slice(0,40)`,
embedded step by step below.  `replace(/^-|-$/g,"")` removes at most one
leading and one trailing hyphen, which is what the anchored alternation
does. -/

def btChar : Char := Char.ofNat 96

/-- `replace(/```/g, "")`: left-to-right removal of triple-backtick runs. -/
def stripFencesL : List Char → List Char
  | a :: b :: c :: rest =>
    if a = btChar ∧ b = btChar ∧ c = btChar then stripFencesL rest
    else a :: stripFencesL (b :: c :: rest)
  | l => l

/-- The character class `[a-z0-9-]` of the slug regexes. -/
def slugChar (c : Char) : Bool :=
  ('a' ≤ c && c ≤ 'z') || ('0' ≤ c && c ≤ '9') || c = '-'

/-- `replace(/[^a-z0-9-]/g, "-")`, per character. -/
def badToHyphen (c : Char) : Char := if slugChar c then c else '-'

/-- ASCII model of `String.prototype.toLowerCase`, per character. -/
def jsToLowerChar (c : Char) : Char :=
  if 'A' ≤ c ∧ c ≤ 'Z' then Char.ofNat (c.toNat + 32) else c

/-- The hyphen-run replacement: collapse each hyphen run to a single hyphen. -/
def collapseHyphens : List Char → List Char
  | a :: b :: rest =>
    if a = '-' ∧ b = '-' then collapseHyphens (b :: rest)
    else a :: collapseHyphens (b :: rest)
  | l => l

def dropLeadHyphen : List Char → List Char
  | c :: rest => if c = '-' then rest else c :: rest
  | [] => []

def dropTrailHyphen : List Char → List Char
  | [] => []
  | [c] => if c = '-' then [] else [c]
  | c :: rest => c :: dropTrailHyphen rest

/-- `replace(/^-|-$/g, "")`. -/
def trimHyphensL (l : List Char) : List Char := dropTrailHyphen (dropLeadHyphen l)

/-- The source's slug cleanup chain, in the source's order (with the
whitespace `trim()` between fence stripping and lowercasing). -/
def cleanSlugL (l : List Char) : List Char :=
  List.take 40 (trimHyphensL (collapseHyphens
    (((jsTrimL (stripFencesL l)).map jsToLowerChar).map badToHyphen)))

def cleanSlug (s : String) : String := ⟨cleanSlugL s.data⟩

/-- The same pipeline in exactly the order the claim lists it (strip fences,
lowercase, replace, collapse, trim hyphens, cap) — without the whitespace
`trim()` the source interposes.  Compared with `cleanSlug` in C4. -/
def specSlugL (l : List Char) : List Char :=
  List.take 40 (trimHyphensL (collapseHyphens
    (((stripFencesL l).map jsToLowerChar).map badToHyphen)))

def specSlug (s : String) : String := ⟨specSlugL s.data⟩

/-- Zero-padded two-digit rendering as produced by `toISOString`. -/
def pad2 (n : Nat) : String := if n < 10 then "0" ++ Nat.repr n else Nat.repr n

/-- The time-of-day part `HH:MM:SS` of `toISOString` at time `h:m:s`; the
source's `split("T")[1].split(".")[0]` isolates exactly this portion. -/
def isoTimePart (h m s : Nat) : String :=
  pad2 h ++ ":" ++ pad2 m ++ ":" ++ pad2 s

/-- The fallback slug token:
`toISOString().split("T")[1].split(".")[0].replace(/:/g,"").slice(0,4)`. -/
def fallbackToken (h m s : Nat) : String :=
  ⟨List.take 4 ((isoTimePart h m s).data.filter (fun c => c ≠ ':'))⟩

/-- Lines 349–363 of `handler.js`: `if (slug)` cleans the returned slug
(a `null` or empty slug skips cleanup and is falsy), then
`if (!slug || slug.length < 3)` substitutes the time-derived fallback. -/
def finalSlug (slug0 : Option String) (h m s : Nat) : String :=
  match slug0 with
  | none => fallbackToken h m s
  | some str =>
    if str = "" then fallbackToken h m s
    else if cleanSlug str = "" ∨ (cleanSlug str).length < 3 then fallbackToken h m s
    else cleanSlug str

/-- A 43-character slug whose cleanup is cut at the cap, exposing a trailing
hyphen (39 `a`s, one hyphen, three `b`s). -/
def longSlugSample : String :=
  "aaaaaaaaaaaaaaaaaaaaaaaaaaaaaaaaaaaaaaa-bbb"

/-- Leading whitespace run of a character list (proof helper). -/
def wsPrefix (l : List Char) : List Char := l.takeWhile wsChar

/-- Trailing whitespace run of a character list after the leading run
(proof helper): `l = wsPrefix l ++ jsTrimL l ++ wsSuffixL l`. -/
def wsSuffixL (l : List Char) : List Char :=
  ((l.dropWhile wsChar).reverse.takeWhile wsChar).reverse

/-- Whether the last character of a list is a hyphen (proof helper). -/
def lastIsHyphen : List Char → Bool
  | [] => false
  | [c] => c = '-'
  | _ :: rest => lastIsHyphen rest

/-! ### Generation client (`llmCall`, lines 183–229)

Each candidate model is paired with the outcome of its
`runEmbeddedPiAgent` call: the promise either rejects (`err`) or resolves
with an optional `payloads[0].text`.  The loop trims the text, returns the
first non-empty trimmed text, warns and continues otherwise, and returns
`none` when all candidates are exhausted.  The scratch temp directory of an
attempt is removed by the `fs.rm` that sits *after* the agent call inside
the `try`, so it runs exactly when the call resolves. -/

inductive PiAgentOutcome where
  | err (msg : String)
  | ok (payloadText : Option String)
  deriving DecidableEq

/-- Observable per-candidate effects of one `llmCall` loop iteration:
whether this attempt's temp directory was removed (`cleaned`) and whether a
warning was logged for it (`warned`). -/
structure AttemptTrace where
  model : String
  cleaned : Bool
  warned : Bool
  deriving DecidableEq

/-- A candidate fails when its call throws, returns no text, or returns
whitespace-only text. -/
def attemptFails : PiAgentOutcome → Bool
  | .err _ => true
  | .ok none => true
  | .ok (some s) => jsTrim s = ""

/-- Trace left by a failed candidate: a throwing call skips the cleanup,
a resolved one cleans up; either way one warning is logged. -/
def failTraceOf (p : String × PiAgentOutcome) : AttemptTrace :=
  ⟨p.1, match p.2 with | .err _ => false | .ok _ => true, true⟩

/-- The `for (const m of models)` loop of `llmCall`: result (`none` when
every candidate is exhausted — no exception escapes the loop) together with
the per-candidate traces. -/
def llmCallRun : List (String × PiAgentOutcome) → Option String × List AttemptTrace
  | [] => (none, [])
  | (m, PiAgentOutcome.err _) :: rest =>
    ((llmCallRun rest).1, ⟨m, false, true⟩ :: (llmCallRun rest).2)
  | (m, PiAgentOutcome.ok none) :: rest =>
    ((llmCallRun rest).1, ⟨m, true, true⟩ :: (llmCallRun rest).2)
  | (m, PiAgentOutcome.ok (some s)) :: rest =>
    if jsTrim s = "" then ((llmCallRun rest).1, ⟨m, true, true⟩ :: (llmCallRun rest).2)
    else (some (jsTrim s), [⟨m, true, false⟩])

/-- `[modelStr, ...(fallbackModels || [])]` at the head of `llmCall`. -/
def llmModels (modelStr : String) (fallbackModels : Option (List String)) : List String :=
  modelStr :: fallbackModels.getD []

/-! ### Archive writer (`handler.js` lines 365–404) -/

/-- `path.join(memoryDir, name)`, modelled as slash concatenation. -/
def pathJoin (dir name : String) : String := dir ++ "/" ++ name

/-- The primary destination `date-reflector-slug.md` (line 372–373). -/
def basePath (dir date slug : String) : String :=
  pathJoin dir (date ++ "-reflector-" ++ slug ++ ".md")

/-- The suffixed destination `date-reflector-slug-i.md` (line 382). -/
def altPath (dir date slug : String) (i : Nat) : String :=
  pathJoin dir (date ++ "-reflector-" ++ slug ++ "-" ++ Nat.repr i ++ ".md")

/-- The `while (true)` suffix-probing loop (lines 380–390).  `used` is the
filesystem oracle (`fs.access` resolving means the path exists), `i` the
current suffix.  The source loop is unbounded; `fuel` only bounds how far
this evaluation unfolds it, so `none` means the loop has not returned
within `fuel` iterations. -/
def probeAlt (used : String → Bool) (dir date slug : String) : Nat → Nat → Option String
  | _, 0 => none
  | i, fuel + 1 =>
    if used (altPath dir date slug i) then probeAlt used dir date slug (i + 1) fuel
    else some (altPath dir date slug i)

/-- Lines 376–393: keep `savePath` when no file exists there, otherwise
probe numeric suffixes starting at 2. -/
def resolveFinalPath (used : String → Bool) (dir date slug : String) (fuel : Nat) :
    Option String :=
  if used (basePath dir date slug) then probeAlt used dir date slug 2 fuel
  else some (basePath dir date slug)

/-! ### Hook configuration and the two generation calls (lines 253–346) -/

/-- The hook's env entries; `none` models an unset variable.  The numeric
fields hold the parsed value of the corresponding env string. -/
structure HookEnv where
  summaryModel : Option String := none
  slugModel : Option String := none
  fallbackModels : Option String := none
  maxChars : Option Nat := none
  timeoutMs : Option Nat := none

/-- `v || dflt` for JS strings (the empty string is falsy). -/
def jsOrStr (v : Option String) (dflt : String) : String :=
  match v with
  | some s => if s = "" then dflt else s
  | none => dflt

def resolvedSummaryModel (e : HookEnv) : String :=
  jsOrStr e.summaryModel "google/gemini-2.5-flash"

def resolvedSlugModel (e : HookEnv) : String :=
  jsOrStr e.slugModel "google/gemini-2.5-flash-lite"

/-- `(env.REFLECTOR_FALLBACK_MODELS || "").split(",").map(s => s.trim())
.filter(Boolean)` (line 257). -/
def resolvedFallbacks (e : HookEnv) : List String :=
  (((splitOnChar ',' (jsOrStr e.fallbackModels "").data).map
    (fun l => String.mk (jsTrimL l))).filter (fun s => s ≠ ""))

/-- Candidate list of the summary call (lines 317–324). -/
def summaryCandidates (e : HookEnv) : List String :=
  llmModels (resolvedSummaryModel e) (some (resolvedFallbacks e))

/-- Candidate list of the slug call (lines 339–346): the slug model with
`[summaryModel, ...fallbackModels]` as its fallback list. -/
def slugCandidates (e : HookEnv) : List String :=
  llmModels (resolvedSlugModel e) (some (resolvedSummaryModel e :: resolvedFallbacks e))

/-- The summary call's timeout: configured `REFLECTOR_TIMEOUT_MS` (default
60000, line 259) run through `timeoutMs || 60_000` inside `llmCall`
(line 207). -/
def summaryEffectiveTimeout (e : HookEnv) : Nat :=
  if e.timeoutMs.getD 60000 = 0 then 60000 else e.timeoutMs.getD 60000

/-- The slug call passes the fixed `timeoutMs: 30_000` (line 345). -/
def slugTimeoutArg : Nat := 30000

/-- The fixed slug timeout after `timeoutMs || 60_000` in `llmCall`. -/
def slugEffectiveTimeout : Nat :=
  if slugTimeoutArg = 0 then 60000 else slugTimeoutArg

/-! ### Theorems -/

theorem recordLine_two_le_length {e : SessionEntry} {l : String}
    (h : recordLine e = some l) : 2 ≤ l.length := by
  obtain ⟨ty, _ | msg⟩ := e
  · simp [recordLine] at h
  simp only [recordLine] at h
  repeat' split at h
  all_goals try exact Option.noConfusion h
  all_goals injection h with h
  all_goals
    subst h
    rw [String.length_append, String.length_append]
    have h2 : (": " : String).length = 2 := rfl
    omega

theorem joinBlankLines_two_le_length {ls : List String} (hne : ls ≠ [])
    (h : ∀ x ∈ ls, 2 ≤ x.length) : 2 ≤ (joinBlankLines ls).length := by
  match ls with
  | [x] => simpa using h x (by simp)
  | x :: y :: t =>
    simp only [joinBlankLines]
    rw [String.length_append, String.length_append]
    have hx := h x (by simp)
    omega

/-- C9: the built transcript is empty iff no record survived the filtering;
in particular a record list in which every record is skipped (noise,
slash commands, blank messages, …) yields the empty transcript. -/
theorem transcript_empty_iff_no_survivors (entries : List SessionEntry) (maxChars : Nat) :
    (buildCleanTranscript entries maxChars = "" ↔ entries.filterMap recordLine = [])
    ∧ ((∀ e ∈ entries, recordLine e = none) →
        buildCleanTranscript entries maxChars = "") := by
  have hiff : buildCleanTranscript entries maxChars = ""
      ↔ entries.filterMap recordLine = [] := by
    constructor
    · intro h
      by_contra hne
      have hlen : 2 ≤ (joinedTranscript entries).length := by
        apply joinBlankLines_two_le_length hne
        intro x hx
        obtain ⟨e, _, he⟩ := List.mem_filterMap.mp hx
        exact recordLine_two_le_length he
      simp only [buildCleanTranscript] at h
      split at h
      · have h2 : 2 ≤ (truncMarker
            ++ jsSliceNeg maxChars (joinedTranscript entries)).length := by
          rw [String.length_append]
          have : (truncMarker).length = 40 := rfl
          omega
        rw [h] at h2
        exact absurd h2 (by decide)
      · rw [h] at hlen
        exact absurd hlen (by decide)
    · intro h
      have hj : joinedTranscript entries = "" := by
        unfold joinedTranscript
        rw [h]
        rfl
      simp only [buildCleanTranscript]
      rw [hj]
      simp
  exact ⟨hiff, fun h => hiff.mpr (List.filterMap_eq_nil_iff.mpr h)⟩

/-- C9 witness: a session consisting of a heartbeat, a slash command and a
blank message produces the empty transcript. -/
theorem transcript_empty_iff_no_survivors_witness :
    buildCleanTranscript [heartbeatEntry, slashEntry, blankEntry] 80000 = "" :=
  (transcript_empty_iff_no_survivors [heartbeatEntry, slashEntry, blankEntry] 80000).2
    (by decide)

/-- C1 counterexample: at `maxChars = 0` and a nonempty clean transcript, the
claim predicts `truncMarker` followed by the final zero characters (that is,
`truncMarker` alone), but the code — mirroring JS `slice(-0) = slice(0)` —
returns the marker followed by the whole joined text. -/
theorem buildCleanTranscript_maxchars_zero_cex :
    0 < (joinedTranscript [userEntry "hi"]).length
    ∧ buildCleanTranscript [userEntry "hi"] 0
        ≠ truncMarker ++ takeRightStr 0 (joinedTranscript [userEntry "hi"]) := by
  decide

/-- C1 (amended to `1 ≤ maxChars`): if the joined clean transcript is longer
than `maxChars`, the result is the truncation marker followed by exactly the
final `maxChars` characters; otherwise the joined text is returned
unchanged. -/
theorem buildCleanTranscript_truncation (entries : List SessionEntry) (maxChars : Nat)
    (hmc : 1 ≤ maxChars) :
    (maxChars < (joinedTranscript entries).length →
      buildCleanTranscript entries maxChars
        = truncMarker ++ takeRightStr maxChars (joinedTranscript entries)
      ∧ (takeRightStr maxChars (joinedTranscript entries)).length = maxChars)
    ∧ ((joinedTranscript entries).length ≤ maxChars →
      buildCleanTranscript entries maxChars = joinedTranscript entries) := by
  constructor
  · intro hlt
    constructor
    · simp only [buildCleanTranscript]
      rw [if_pos hlt]
      unfold jsSliceNeg
      rw [if_neg (by omega)]
    · have hdata : maxChars < (joinedTranscript entries).data.length := hlt
      show ((joinedTranscript entries).data.drop
        ((joinedTranscript entries).data.length - maxChars)).length = maxChars
      rw [List.length_drop]
      omega
  · intro hle
    simp only [buildCleanTranscript]
    rw [if_neg (by omega)]

/-- C1 witness: with `maxChars = 3` and clean transcript `"USER: hi"`, the
result is the marker followed by the last three characters `" hi"`. -/
theorem buildCleanTranscript_truncation_witness :
    buildCleanTranscript [userEntry "hi"] 3
      = truncMarker ++ takeRightStr 3 (joinedTranscript [userEntry "hi"]) :=
  ((buildCleanTranscript_truncation [userEntry "hi"] 3 (by decide)).1 (by decide)).1

/-! ### Hyphen-collapsing lemmas for the slug pipeline -/

theorem collapseHyphens_cons_cons (t : List Char) :
    collapseHyphens ('-' :: '-' :: t) = collapseHyphens ('-' :: t) := by
  simp [collapseHyphens]

theorem collapseHyphens_rep_left (a : Nat) (M : List Char) :
    collapseHyphens (List.replicate (a + 1) '-' ++ M) = collapseHyphens ('-' :: M) := by
  induction a with
  | zero => rfl
  | succ a ih =>
    have h1 : List.replicate (a + 2) '-' ++ M
        = '-' :: '-' :: (List.replicate a '-' ++ M) := by
      simp [List.replicate_succ]
    rw [h1, collapseHyphens_cons_cons]
    have h2 : ('-' :: (List.replicate a '-' ++ M)) = List.replicate (a + 1) '-' ++ M := by
      simp [List.replicate_succ]
    rw [h2, ih]

theorem collapseHyphens_ne_nil (M : List Char) (h : M ≠ []) : collapseHyphens M ≠ [] := by
  induction M with
  | nil => exact absurd rfl h
  | cons a t ih =>
    cases t with
    | nil => simp [collapseHyphens]
    | cons b t' =>
      simp only [collapseHyphens]
      split
      · exact ih (by simp)
      · simp

theorem collapseHyphens_head (M : List Char) (h : M ≠ []) :
    (collapseHyphens M).head? = M.head? := by
  induction M with
  | nil => exact absurd rfl h
  | cons a t ih =>
    cases t with
    | nil => rfl
    | cons b t' =>
      simp only [collapseHyphens]
      split
      · next hab =>
        rw [ih (by simp)]
        simp [hab.1, hab.2]
      · simp

theorem collapseHyphens_cons_hyphen (M : List Char) :
    collapseHyphens ('-' :: M)
      = if M.head? = some '-' then collapseHyphens M else '-' :: collapseHyphens M := by
  cases M with
  | nil => rfl
  | cons b t =>
    simp only [collapseHyphens]
    by_cases hb : b = '-'
    · subst hb; simp
    · simp [hb]

theorem collapseHyphens_cons_of_ne (c d : Char) (t : List Char)
    (h : ¬(c = '-' ∧ d = '-')) :
    collapseHyphens (c :: d :: t) = c :: collapseHyphens (d :: t) := by
  simp only [collapseHyphens]
  rw [if_neg h]

theorem trimH_collapse_rep_left (a : Nat) (M : List Char) :
    trimHyphensL (collapseHyphens (List.replicate a '-' ++ M))
      = trimHyphensL (collapseHyphens M) := by
  cases a with
  | zero => simp
  | succ a =>
    rw [collapseHyphens_rep_left, collapseHyphens_cons_hyphen]
    cases hM : M.head? with
    | none =>
      have hnil : M = [] := by cases M <;> simp_all
      subst hnil
      rfl
    | some c =>
      have hne : M ≠ [] := by cases M <;> simp_all
      by_cases hc : c = '-'
      · subst hc
        rw [if_pos rfl]
      · rw [if_neg (by simp [hc])]
        have hh : (collapseHyphens M).head? = some c := by
          rw [collapseHyphens_head M hne, hM]
        cases hX : collapseHyphens M with
        | nil => simp_all
        | cons x xs =>
          rw [hX] at hh
          injection hh with hh
          subst hh
          simp [trimHyphensL, dropLeadHyphen, hc]

theorem collapseHyphens_append_hh (M t : List Char) :
    collapseHyphens (M ++ '-' :: '-' :: t) = collapseHyphens (M ++ '-' :: t) := by
  induction M with
  | nil => simpa using collapseHyphens_cons_cons t
  | cons c M' ih =>
    cases M' with
    | nil =>
      simp only [List.cons_append, List.nil_append]
      by_cases hc : c = '-'
      · subst hc
        rw [collapseHyphens_cons_cons]
      · rw [collapseHyphens_cons_of_ne c '-' ('-' :: t) (by simp [hc]),
          collapseHyphens_cons_of_ne c '-' t (by simp [hc]),
          collapseHyphens_cons_cons]
    | cons d R =>
      simp only [List.cons_append] at *
      by_cases hcd : c = '-' ∧ d = '-'
      · obtain ⟨hc, hd⟩ := hcd
        subst hc
        subst hd
        rw [collapseHyphens_cons_cons, collapseHyphens_cons_cons]
        exact ih
      · rw [collapseHyphens_cons_of_ne c d _ hcd, collapseHyphens_cons_of_ne c d _ hcd, ih]

theorem collapseHyphens_append_rep (M : List Char) (b : Nat) :
    collapseHyphens (M ++ List.replicate (b + 1) '-')
      = collapseHyphens (M ++ ['-']) := by
  induction b with
  | zero => rfl
  | succ b ih =>
    have h1 : M ++ List.replicate (b + 2) '-' = M ++ '-' :: '-' :: List.replicate b '-' := by
      simp [List.replicate_succ]
    rw [h1, collapseHyphens_append_hh]
    have h2 : M ++ '-' :: List.replicate b '-' = M ++ List.replicate (b + 1) '-' := by
      simp [List.replicate_succ]
    rw [h2, ih]

theorem lastIsHyphen_cons (c : Char) (l : List Char) (h : l ≠ []) :
    lastIsHyphen (c :: l) = lastIsHyphen l := by
  cases l with
  | nil => exact absurd rfl h
  | cons d t => rfl

theorem collapseHyphens_append_single (M : List Char) :
    collapseHyphens (M ++ ['-'])
      = if lastIsHyphen (collapseHyphens M) then collapseHyphens M
        else collapseHyphens M ++ ['-'] := by
  induction M with
  | nil => rfl
  | cons c M' ih =>
    cases M' with
    | nil =>
      by_cases hc : c = '-'
      · subst hc
        decide
      · simp only [List.cons_append, List.nil_append]
        rw [collapseHyphens_cons_of_ne c '-' [] (by simp [hc])]
        rw [show collapseHyphens [c] = [c] from rfl]
        rw [show lastIsHyphen [c] = decide (c = '-') from rfl]
        rw [decide_eq_false hc]
        rfl
    | cons d R =>
      simp only [List.cons_append] at *
      by_cases hcd : c = '-' ∧ d = '-'
      · obtain ⟨hc, hd⟩ := hcd
        subst hc
        subst hd
        rw [collapseHyphens_cons_cons, collapseHyphens_cons_cons]
        exact ih
      · rw [collapseHyphens_cons_of_ne c d _ hcd, collapseHyphens_cons_of_ne c d _ hcd, ih]
        have hne := collapseHyphens_ne_nil (d :: R) (by simp)
        rw [lastIsHyphen_cons c _ hne]
        by_cases hl : lastIsHyphen (collapseHyphens (d :: R))
        · simp [hl]
        · simp [hl]

theorem dropTrailHyphen_cons_cons (c d : Char) (X : List Char) :
    dropTrailHyphen (c :: d :: X) = c :: dropTrailHyphen (d :: X) := rfl

theorem dropTrailHyphen_append_single (Y : List Char) :
    dropTrailHyphen (Y ++ ['-']) = Y := by
  induction Y with
  | nil => rfl
  | cons c Y' ih =>
    cases Y' with
    | nil => rfl
    | cons d R =>
      rw [List.cons_append, List.cons_append, dropTrailHyphen_cons_cons,
        ← List.cons_append, ih]

theorem dropTrailHyphen_of_not_last (Y : List Char) (h : lastIsHyphen Y = false) :
    dropTrailHyphen Y = Y := by
  induction Y with
  | nil => rfl
  | cons c Y' ih =>
    cases Y' with
    | nil =>
      rw [show lastIsHyphen [c] = decide (c = '-') from rfl] at h
      have hc : ¬ c = '-' := of_decide_eq_false h
      simp [dropTrailHyphen, hc]
    | cons d R =>
      have h' : lastIsHyphen (d :: R) = false := h
      rw [dropTrailHyphen_cons_cons, ih h']

theorem trimH_append_single (X : List Char) (h : lastIsHyphen X = false) :
    trimHyphensL (X ++ ['-']) = trimHyphensL X := by
  cases X with
  | nil => rfl
  | cons x xs =>
    cases xs with
    | nil =>
      rw [show lastIsHyphen [x] = decide (x = '-') from rfl] at h
      have hx : ¬ x = '-' := of_decide_eq_false h
      simp [trimHyphensL, dropLeadHyphen, dropTrailHyphen, hx]
    | cons y ys =>
      have h' : lastIsHyphen (y :: ys) = false := h
      simp only [trimHyphensL, List.cons_append, dropLeadHyphen]
      by_cases hx : x = '-'
      · rw [if_pos hx, if_pos hx]
        rw [← List.cons_append, dropTrailHyphen_append_single,
          dropTrailHyphen_of_not_last _ h']
      · rw [if_neg hx, if_neg hx]
        rw [← List.cons_append, ← List.cons_append, dropTrailHyphen_append_single,
          dropTrailHyphen_of_not_last _ h]

theorem trimH_collapse_append_rep (M : List Char) (b : Nat) :
    trimHyphensL (collapseHyphens (M ++ List.replicate b '-'))
      = trimHyphensL (collapseHyphens M) := by
  cases b with
  | zero => simp
  | succ b =>
    rw [collapseHyphens_append_rep, collapseHyphens_append_single]
    by_cases hl : lastIsHyphen (collapseHyphens M)
    · rw [if_pos hl]
    · rw [if_neg hl]
      exact trimH_append_single _ (by simpa using hl)

/-! ### Whitespace decomposition lemmas -/

theorem trim_decomposition (l : List Char) :
    l = wsPrefix l ++ (jsTrimL l ++ wsSuffixL l) := by
  unfold wsPrefix jsTrimL wsSuffixL
  conv_lhs => rw [← List.takeWhile_append_dropWhile (p := wsChar) (l := l)]
  congr 1
  rw [← List.reverse_append, List.takeWhile_append_dropWhile, List.reverse_reverse]

theorem wsPrefix_ws (l : List Char) : ∀ c ∈ wsPrefix l, wsChar c :=
  fun _ hc => List.mem_takeWhile_imp hc

theorem wsSuffixL_ws (l : List Char) : ∀ c ∈ wsSuffixL l, wsChar c := by
  intro c hc
  unfold wsSuffixL at hc
  rw [List.mem_reverse] at hc
  exact List.mem_takeWhile_imp hc

theorem ws_maps_to_hyphen (c : Char) (h : wsChar c = true) :
    badToHyphen (jsToLowerChar c) = '-' := by
  have h4 : ((c = ' ' ∨ c = '\t') ∨ c = '\r') ∨ c = '\n' := by
    simpa [wsChar] using h
  rcases h4 with ((h1 | h1) | h1) | h1 <;> subst h1 <;> decide

theorem map_ws_run (A : List Char) (h : ∀ c ∈ A, wsChar c) :
    (A.map jsToLowerChar).map badToHyphen = List.replicate A.length '-' := by
  induction A with
  | nil => rfl
  | cons c A' ih =>
    simp only [List.map_cons, List.length_cons, List.replicate_succ]
    rw [ws_maps_to_hyphen c (h c (by simp))]
    rw [ih (fun x hx => h x (by simp [hx]))]

/-- The spec's step order (without the interposed whitespace trim) computes
the same slug as the source's order, for every input. -/
theorem specSlugL_eq_cleanSlugL (l : List Char) : specSlugL l = cleanSlugL l := by
  unfold specSlugL cleanSlugL
  conv_lhs => rw [trim_decomposition (stripFencesL l)]
  rw [List.map_append, List.map_append, List.map_append, List.map_append]
  rw [map_ws_run (wsPrefix (stripFencesL l)) (wsPrefix_ws _),
    map_ws_run (wsSuffixL (stripFencesL l)) (wsSuffixL_ws _)]
  rw [trimH_collapse_rep_left, trimH_collapse_append_rep]

/-- C4: the slug post-processing applies, in order, fence stripping,
lowercasing, replacement of characters outside `[a-z0-9-]`, hyphen-run
collapsing, edge-hyphen trimming and the 40-character cap (the source's
interposed whitespace trim never changes the result — proved for every
input); the example `"  Reflector Hook Setup!! "` cleans to
`"reflector-hook-setup"`; and a missing slug, or one whose cleanup is
shorter than 3 characters, is replaced by the time-derived fallback. -/
theorem slug_postprocessing (h m s : Nat) :
    (∀ str : String, specSlug str = cleanSlug str)
    ∧ cleanSlug "  Reflector Hook Setup!! " = "reflector-hook-setup"
    ∧ finalSlug none h m s = fallbackToken h m s
    ∧ (∀ str : String, (cleanSlug str).length < 3 →
        finalSlug (some str) h m s = fallbackToken h m s) := by
  refine ⟨fun str => congrArg String.mk (specSlugL_eq_cleanSlugL str.data),
    by decide, rfl, ?_⟩
  intro str hlen
  by_cases hstr : str = ""
  · subst hstr
    rfl
  · simp only [finalSlug]
    rw [if_neg hstr, if_pos (Or.inr hlen)]

/-- C4 witness: the slug `"!!"` cleans to the empty string, which is shorter
than 3 characters, so the fallback token is substituted. -/
theorem slug_postprocessing_witness :
    finalSlug (some "!!") 22 39 5 = fallbackToken 22 39 5 :=
  (slug_postprocessing 22 39 5).2.2.2 "!!" (by decide)

theorem pad2_ok : ∀ n < 60, ((pad2 n).data.length = 2
    ∧ ∀ c ∈ (pad2 n).data, slugChar c = true ∧ c ≠ ':') := by decide

/-- Shape of the fallback token at a valid clock time: it is exactly the
`HHMM` digits (seconds are cut off by the 4-character cap). -/
theorem fallbackToken_facts (h m s : Nat) (hh : h < 24) (hm : m < 60) (hs : s < 60) :
    (fallbackToken h m s).data = (pad2 h).data ++ (pad2 m).data
    ∧ (fallbackToken h m s).length = 4
    ∧ (∀ c ∈ (fallbackToken h m s).data, slugChar c = true ∧ c ≠ ':') := by
  have hp2h := pad2_ok h (by omega)
  have hp2m := pad2_ok m hm
  have hp2s := pad2_ok s hs
  have hdata : (isoTimePart h m s).data
      = (pad2 h).data ++ ':' :: ((pad2 m).data ++ ':' :: (pad2 s).data) := by
    simp [isoTimePart, String.data_append]
  have hfilter : ((isoTimePart h m s).data.filter (fun c => c ≠ ':'))
      = ((pad2 h).data ++ (pad2 m).data) ++ (pad2 s).data := by
    rw [hdata, List.filter_append]
    rw [List.filter_eq_self.mpr (fun a ha => by simp [(hp2h.2 a ha).2])]
    rw [List.filter_cons]
    rw [if_neg (by simp)]
    rw [List.filter_append]
    rw [List.filter_eq_self.mpr (fun a ha => by simp [(hp2m.2 a ha).2])]
    rw [List.filter_cons]
    rw [if_neg (by simp)]
    rw [List.filter_eq_self.mpr (fun a ha => by simp [(hp2s.2 a ha).2])]
    rw [List.append_assoc]
  have hAB : ((pad2 h).data ++ (pad2 m).data).length = 4 := by
    rw [List.length_append, hp2h.1, hp2m.1]
  have htake : (((pad2 h).data ++ (pad2 m).data) ++ (pad2 s).data).take 4
      = (pad2 h).data ++ (pad2 m).data := by
    rw [← hAB, List.take_left]
  have hdata2 : (fallbackToken h m s).data = (pad2 h).data ++ (pad2 m).data := by
    show ((isoTimePart h m s).data.filter (fun c => c ≠ ':')).take 4
      = (pad2 h).data ++ (pad2 m).data
    rw [hfilter, htake]
  refine ⟨hdata2, ?_, ?_⟩
  · show (fallbackToken h m s).data.length = 4
    rw [hdata2, hAB]
  · intro c hc
    rw [hdata2] at hc
    rcases List.mem_append.mp hc with h1 | h1
    · exact hp2h.2 c h1
    · exact hp2m.2 c h1

/-- C7 counterexample: two clock times that differ only in the seconds field
produce the same fallback token — the token carries no seconds information,
because the 4-character cap cuts `HHMMSS` down to `HHMM`. -/
theorem fallback_token_seconds_cex :
    fallbackToken 22 39 5 = fallbackToken 22 39 59
    ∧ fallbackToken 22 39 5 = "2239" := by
  decide

/-- C7 (amended): whenever slug generation fails or post-processing yields
fewer than 3 characters, the substituted fallback slug is a time-derived
identifier of exactly 4 characters with no colon — but with minute
precision (`HHMM`), the seconds being truncated by the 4-character cap. -/
theorem fallback_token_shape (h m s : Nat) (hh : h < 24) (hm : m < 60) (hs : s < 60) :
    finalSlug none h m s = fallbackToken h m s
    ∧ (∀ str : String, (cleanSlug str).length < 3 →
        finalSlug (some str) h m s = fallbackToken h m s)
    ∧ fallbackToken h m s = pad2 h ++ pad2 m
    ∧ (fallbackToken h m s).length = 4
    ∧ (∀ c ∈ (fallbackToken h m s).data, c ≠ ':') := by
  obtain ⟨hdata, hlen, hchars⟩ := fallbackToken_facts h m s hh hm hs
  refine ⟨rfl, ?_, ?_, hlen, fun c hc => (hchars c hc).2⟩
  · intro str hstr
    by_cases hs0 : str = ""
    · subst hs0
      rfl
    · simp only [finalSlug]
      rw [if_neg hs0, if_pos (Or.inr hstr)]
  · apply String.ext
    rw [hdata, String.data_append]

/-- C7 witness: at 22:39:05 the fallback token is `"2239"`. -/
theorem fallback_token_shape_witness :
    finalSlug none 22 39 5 = fallbackToken 22 39 5
    ∧ fallbackToken 22 39 5 = pad2 22 ++ pad2 39 :=
  let f := fallback_token_shape 22 39 5 (by decide) (by decide) (by decide)
  ⟨f.1, f.2.2.1⟩

/-! ### Character-set lemmas for the final slug -/

theorem badToHyphen_slugChar (c : Char) : slugChar (badToHyphen c) = true := by
  unfold badToHyphen
  split
  · assumption
  · decide

theorem collapseHyphens_subset (l : List Char) : ∀ c ∈ collapseHyphens l, c ∈ l := by
  induction l with
  | nil => simp [collapseHyphens]
  | cons a t ih =>
    cases t with
    | nil => simp [collapseHyphens]
    | cons b t' =>
      intro c hc
      by_cases hab : a = '-' ∧ b = '-'
      · rw [show collapseHyphens (a :: b :: t') = collapseHyphens (b :: t') from by
          simp only [collapseHyphens]; rw [if_pos hab]] at hc
        exact List.mem_cons_of_mem a (ih c hc)
      · rw [collapseHyphens_cons_of_ne a b t' hab] at hc
        rcases List.mem_cons.mp hc with h1 | h1
        · simp [h1]
        · exact List.mem_cons_of_mem a (ih c h1)

theorem dropLeadHyphen_subset (l : List Char) : ∀ c ∈ dropLeadHyphen l, c ∈ l := by
  cases l with
  | nil => simp [dropLeadHyphen]
  | cons a t =>
    intro c hc
    simp only [dropLeadHyphen] at hc
    split at hc
    · exact List.mem_cons_of_mem a hc
    · exact hc

theorem dropTrailHyphen_subset (l : List Char) : ∀ c ∈ dropTrailHyphen l, c ∈ l := by
  induction l with
  | nil => simp [dropTrailHyphen]
  | cons a t ih =>
    cases t with
    | nil =>
      intro c hc
      simp only [dropTrailHyphen] at hc
      split at hc
      · exact absurd hc (List.not_mem_nil c)
      · exact hc
    | cons b t' =>
      intro c hc
      rw [dropTrailHyphen_cons_cons] at hc
      rcases List.mem_cons.mp hc with h1 | h1
      · simp [h1]
      · exact List.mem_cons_of_mem a (ih c h1)

theorem cleanSlugL_chars (l : List Char) : ∀ c ∈ cleanSlugL l, slugChar c = true := by
  intro c hc
  unfold cleanSlugL at hc
  have h1 := List.take_subset 40 _ hc
  unfold trimHyphensL at h1
  have h2 := dropTrailHyphen_subset _ c h1
  have h3 := dropLeadHyphen_subset _ c h2
  have h4 := collapseHyphens_subset _ c h3
  obtain ⟨d, _, hd⟩ := List.mem_map.mp h4
  rw [← hd]
  exact badToHyphen_slugChar d

theorem cleanSlug_length_le (s : String) : (cleanSlug s).length ≤ 40 := by
  show (cleanSlugL s.data).length ≤ 40
  unfold cleanSlugL
  exact List.length_take_le 40 _

/-- C10: for every model-returned slug and every valid clock time, the slug
used in the filename has length between 3 and 40 and consists only of
`[a-z0-9-]` characters; the 40-character cap is applied after edge-hyphen
trimming, so the result can end in a hyphen (witnessed by
`longSlugSample`). -/
theorem final_slug_invariant (slug0 : Option String) (h m s : Nat)
    (hh : h < 24) (hm : m < 60) (hs : s < 60) :
    (3 ≤ (finalSlug slug0 h m s).length
      ∧ (finalSlug slug0 h m s).length ≤ 40
      ∧ ∀ c ∈ (finalSlug slug0 h m s).data, slugChar c = true)
    ∧ (finalSlug (some longSlugSample) h m s).data.getLast? = some '-' := by
  have hfb : 3 ≤ (fallbackToken h m s).length
      ∧ (fallbackToken h m s).length ≤ 40
      ∧ ∀ c ∈ (fallbackToken h m s).data, slugChar c = true := by
    obtain ⟨_, hlen, hchars⟩ := fallbackToken_facts h m s hh hm hs
    exact ⟨by omega, by omega, fun c hc => (hchars c hc).1⟩
  constructor
  · cases slug0 with
    | none => exact hfb
    | some str =>
      by_cases hs0 : str = ""
      · subst hs0
        exact hfb
      · simp only [finalSlug]
        rw [if_neg hs0]
        by_cases hcond : cleanSlug str = "" ∨ (cleanSlug str).length < 3
        · rw [if_pos hcond]
          exact hfb
        · rw [if_neg hcond]
          push_neg at hcond
          exact ⟨by omega, cleanSlug_length_le str, cleanSlugL_chars str.data⟩
  · have heq : finalSlug (some longSlugSample) h m s = cleanSlug longSlugSample := by
      simp only [finalSlug]
      rw [if_neg (by decide), if_neg (by decide)]
    rw [heq]
    decide

/-- C10 witness: instantiation at a concrete slug and clock time. -/
theorem final_slug_invariant_witness :
    3 ≤ (finalSlug (some "hello world") 22 39 5).length
    ∧ (finalSlug (some "hello world") 22 39 5).length ≤ 40 :=
  let f := final_slug_invariant (some "hello world") 22 39 5
    (by decide) (by decide) (by decide)
  ⟨f.1.1, f.1.2.1⟩

/-! ### Generation-client theorems -/

/-- C2: the generation client returns the trimmed text of the first
candidate succeeding with non-empty output, leaving later candidates
untried and logging exactly one warning for each earlier failed or empty
candidate; and when every candidate fails the loop returns `none` — the
loop function is total, so no exception propagates to the caller. -/
theorem llmCall_fallback (pre post : List (String × PiAgentOutcome)) (m s : String)
    (hpre : ∀ p ∈ pre, attemptFails p.2 = true) (hs : jsTrim s ≠ "") :
    llmCallRun (pre ++ (m, PiAgentOutcome.ok (some s)) :: post)
      = (some (jsTrim s), pre.map failTraceOf ++ [⟨m, true, false⟩])
    ∧ (∀ all : List (String × PiAgentOutcome),
        (∀ p ∈ all, attemptFails p.2 = true) →
        llmCallRun all = (none, all.map failTraceOf)) := by
  constructor
  · induction pre with
    | nil =>
      simp only [List.nil_append, List.map_nil]
      simp only [llmCallRun]
      rw [if_neg hs]
    | cons p pre' ih =>
      obtain ⟨pm, po⟩ := p
      have hpfail := hpre (pm, po) (by simp)
      have ih' := ih fun q hq => hpre q (by simp [hq])
      cases po with
      | err msg =>
        simp only [List.cons_append, llmCallRun, List.map_cons, List.append_eq, failTraceOf]
        rw [ih']
      | ok t =>
        cases t with
        | none =>
          simp only [List.cons_append, llmCallRun, List.map_cons, List.append_eq, failTraceOf]
          rw [ih']
        | some ts =>
          have hts : jsTrim ts = "" := by simpa [attemptFails] using hpfail
          simp only [List.cons_append, llmCallRun, List.map_cons, List.append_eq, failTraceOf]
          rw [if_pos hts, ih']
  · intro all hall
    induction all with
    | nil => rfl
    | cons p rest ih =>
      obtain ⟨pm, po⟩ := p
      have hpfail := hall (pm, po) (by simp)
      have ih' := ih fun q hq => hall q (by simp [hq])
      cases po with
      | err msg =>
        simp only [llmCallRun, List.map_cons, List.append_eq, failTraceOf]
        rw [ih']
      | ok t =>
        cases t with
        | none =>
          simp only [llmCallRun, List.map_cons, List.append_eq, failTraceOf]
          rw [ih']
        | some ts =>
          have hts : jsTrim ts = "" := by simpa [attemptFails] using hpfail
          simp only [llmCallRun, List.map_cons, List.append_eq, failTraceOf]
          rw [if_pos hts, ih']

/-- C2 witness: candidates A (throws) and B (whitespace-only) fail and are
each warned once, C succeeds with trimmed output, D is never attempted. -/
theorem llmCall_fallback_witness :
    llmCallRun [("modelA", PiAgentOutcome.err "boom"),
        ("modelB", PiAgentOutcome.ok (some " ")),
        ("modelC", PiAgentOutcome.ok (some " out ")),
        ("modelD", PiAgentOutcome.ok (some "later"))]
      = (some (jsTrim " out "),
        [("modelA", PiAgentOutcome.err "boom"),
          ("modelB", PiAgentOutcome.ok (some " "))].map failTraceOf
          ++ [⟨"modelC", true, false⟩]) :=
  (llmCall_fallback
    [("modelA", PiAgentOutcome.err "boom"), ("modelB", PiAgentOutcome.ok (some " "))]
    [("modelD", PiAgentOutcome.ok (some "later"))]
    "modelC" " out " (by decide) (by decide)).1

/-- C5: evaluating the loop at a candidate whose generation call throws
shows its scratch temp directory is not cleaned up (`cleaned = false`)
before the next candidate is attempted — the `fs.rm` cleanup sits after the
agent call inside the `try` block, so a thrown error skips it; a resolved
call (here the succeeding second candidate) does clean up. -/
theorem llmCall_err_skips_cleanup :
    llmCallRun [("modelA", PiAgentOutcome.err "boom"),
        ("modelB", PiAgentOutcome.ok (some "ok"))]
      = (some "ok", [⟨"modelA", false, true⟩, ⟨"modelB", true, false⟩]) := by
  decide

/-! ### Archive-writer theorems -/

theorem probeAlt_not_used (used : String → Bool) (dir date slug : String) :
    ∀ fuel i p, probeAlt used dir date slug i fuel = some p → used p = false := by
  intro fuel
  induction fuel with
  | zero =>
    intro i p h
    exact absurd h (by simp [probeAlt])
  | succ fuel ih =>
    intro i p h
    simp only [probeAlt] at h
    split at h
    · exact ih (i + 1) p h
    · next hfree =>
      injection h with h
      subst h
      simpa using hfree

theorem resolveFinalPath_not_used (used : String → Bool) (dir date slug : String)
    (fuel : Nat) (p : String) (h : resolveFinalPath used dir date slug fuel = some p) :
    used p = false := by
  unfold resolveFinalPath at h
  split at h
  · exact probeAlt_not_used used dir date slug fuel 2 p h
  · next hfree =>
    injection h with h
    subst h
    simpa using hfree

theorem basePath_ne_altPath (dir date slug : String) (i : Nat)
    (hi : (Nat.repr i).length = 1) :
    basePath dir date slug ≠ altPath dir date slug i := by
  intro h
  have hlen := congrArg String.length h
  simp only [basePath, altPath, pathJoin, String.length_append, hi,
    show ("-" : String).length = 1 from rfl] at hlen
  omega

theorem altPath_two_ne_three (dir date slug : String) :
    altPath dir date slug 2 ≠ altPath dir date slug 3 := by
  intro h
  have hd := congrArg String.data h
  simp only [altPath, pathJoin, String.data_append] at hd
  have h1 := List.append_cancel_left hd
  have h2 := List.append_cancel_right h1
  have h3 := List.append_cancel_left h2
  exact absurd h3 (by decide)

/-- C3: starting from a directory holding none of this date/slug's candidate
names, the first write resolves to the base path, a second identical write
to suffix -2, a third to suffix -3; a resolved destination never refers to
an existing file (nothing is overwritten), and each collision resolves to a
path rather than an error. -/
theorem archive_collision_suffixes (dir date slug : String) (fs0 : List String)
    (fuel : Nat)
    (hb : basePath dir date slug ∉ fs0)
    (h2 : altPath dir date slug 2 ∉ fs0)
    (h3 : altPath dir date slug 3 ∉ fs0) :
    resolveFinalPath (fun p => decide (p ∈ fs0)) dir date slug fuel
      = some (basePath dir date slug)
    ∧ resolveFinalPath (fun p => decide (p ∈ basePath dir date slug :: fs0))
        dir date slug (fuel + 1) = some (altPath dir date slug 2)
    ∧ resolveFinalPath
        (fun p => decide (p ∈ altPath dir date slug 2 :: basePath dir date slug :: fs0))
        dir date slug (fuel + 2) = some (altPath dir date slug 3)
    ∧ (∀ (used : String → Bool) (fu : Nat) (p : String),
        resolveFinalPath used dir date slug fu = some p → used p = false) := by
  have hb2 := basePath_ne_altPath dir date slug 2 rfl
  have hb3 := basePath_ne_altPath dir date slug 3 rfl
  have h23 := altPath_two_ne_three dir date slug
  refine ⟨?_, ?_, ?_, fun used fu p h => resolveFinalPath_not_used used dir date slug fu p h⟩
  · simp only [resolveFinalPath]
    rw [if_neg (by simp [hb])]
  · simp only [resolveFinalPath]
    rw [if_pos (by simp)]
    simp only [probeAlt]
    rw [if_neg (by
      simp only [decide_eq_true_eq, List.mem_cons]
      rintro (hx | hx)
      · exact hb2 hx.symm
      · exact h2 hx)]
  · simp only [resolveFinalPath]
    rw [if_pos (by simp)]
    simp only [probeAlt]
    rw [if_pos (by simp)]
    rw [if_neg (by
      simp only [decide_eq_true_eq, List.mem_cons]
      rintro (hx | hx | hx)
      · exact h23 hx.symm
      · exact hb3 hx.symm
      · exact h3 hx)]

/-- C3 witness: concrete directory, date and slug, starting from an empty
directory. -/
theorem archive_collision_suffixes_witness :
    resolveFinalPath
      (fun p => decide (p ∈ [altPath "mem" "2026-10-11" "abc" 2,
        basePath "mem" "2026-10-11" "abc"]))
      "mem" "2026-10-11" "abc" 2 = some (altPath "mem" "2026-10-11" "abc" 3) :=
  (archive_collision_suffixes "mem" "2026-10-11" "abc" [] 0
    (by simp) (by simp) (by simp)).2.2.1

/-- C8: the suffix-probing loop is the unbounded `while (true)`: on a
filesystem oracle where every probed path exists, the loop returns no value
after any number of iterations — the code has no explicit iteration bound
and no hard-failure branch, it simply loops forever (`none` here means
"still looping after `fuel` iterations"). -/
theorem probe_loop_unbounded (fuel : Nat) :
    ∀ (i : Nat) (dir date slug : String),
      probeAlt (fun _ => true) dir date slug i fuel = none := by
  induction fuel with
  | zero => intro i dir date slug; rfl
  | succ fuel ih =>
    intro i dir date slug
    simp only [probeAlt, if_pos rfl]
    exact ih (i + 1) dir date slug

/-! ### Configuration theorems -/

/-- C6 counterexample: with a configured per-call timeout of 20000 ms, the
slug call's fixed 30000 ms timeout is not shorter than the summary call's
20000 ms timeout, contradicting "for every configured per-call timeout
value". -/
theorem slug_timeout_cex :
    ¬ slugEffectiveTimeout
        < summaryEffectiveTimeout ⟨none, none, none, none, some 20000⟩ := by
  decide

/-- C6 (amended): the slug call's candidate list is the configured slug
model, then the summary model, then the shared fallback chain, and its
timeout is the fixed 30000 ms — which is shorter than the summary call's
timeout whenever the configured timeout exceeds 30000 ms, in particular at
the 60000 ms default, but not for smaller configured values. -/
theorem slug_call_shape (e : HookEnv) :
    slugCandidates e
      = resolvedSlugModel e :: resolvedSummaryModel e :: resolvedFallbacks e
    ∧ slugEffectiveTimeout = 30000
    ∧ (30000 < summaryEffectiveTimeout e →
        slugEffectiveTimeout < summaryEffectiveTimeout e)
    ∧ (e.timeoutMs = none → slugEffectiveTimeout < summaryEffectiveTimeout e) := by
  refine ⟨rfl, rfl, fun h => ?_, fun h => ?_⟩
  · simpa [slugEffectiveTimeout, slugTimeoutArg] using h
  · rw [show summaryEffectiveTimeout e
      = if e.timeoutMs.getD 60000 = 0 then 60000 else e.timeoutMs.getD 60000 from rfl, h]
    decide

/-- C6 witness: at the default configuration the slug timeout is shorter. -/
theorem slug_call_shape_witness :
    slugEffectiveTimeout < summaryEffectiveTimeout ⟨none, none, none, none, none⟩ :=
  (slug_call_shape ⟨none, none, none, none, none⟩).2.2.2 rfl

end Reflector
